import Mathlib

/-!
Verification of `lib/console.js` of the `intel` console-interception module.

The JavaScript source is shallowly embedded: strings are Lean `String`s
(lists of characters), the mutable module state becomes explicit state
passing, and JavaScript exceptions become `Option`/`none`.  External
collaborators that the source requires but does not define (Node's `path`
module, `chalk.stripColor`, the `utcstring` detector, the `intel` logger
registry) are either modelled from the specification's description of their
interface or passed in as parameters.
-/

namespace Intel

/-- Least index at which `pat` occurs in `s` (as a contiguous run), if any.
This is the search underlying JavaScript's `String.prototype.indexOf`:
the empty pattern occurs at index 0. -/
def firstMatchIdx : List Char → List Char → Option Nat
  | s, pat =>
    if pat.isPrefixOf s then some 0
    else
      match s with
      | [] => none
      | _ :: t => (firstMatchIdx t pat).map (· + 1)

/-- JavaScript `str.indexOf(pat)`: index of the first occurrence, `-1` when
absent. -/
def jsIndexOf (s pat : String) : Int :=
  match firstMatchIdx s.data pat.data with
  | some i => (i : Int)
  | none => -1

/-- Function `endsWith` from the source (`console.js` line 40): JavaScript
`str.indexOf(suffix, str.length - suffix.length) !== -1`.  A negative
`fromIndex` is clamped to 0 by `indexOf`, which `Nat` subtraction models. -/
def endsWith (str suffix : String) : Bool :=
  let start : Nat := str.data.length - suffix.data.length
  (firstMatchIdx (str.data.drop start) suffix.data).isSome

/-- JavaScript `str.replace(pat, repl)` with a *string* pattern: replaces
only the first occurrence.  Auxiliary recursion for a non-empty pattern. -/
def replaceFirstAux (pat repl : List Char) : List Char → List Char
  | [] => []
  | c :: t =>
    if pat.isPrefixOf (c :: t) then repl ++ (c :: t).drop pat.length
    else c :: replaceFirstAux pat repl t

/-- JavaScript `str.replace(pat, repl)` (first occurrence only; the empty
pattern matches at index 0, prepending the replacement). -/
def jsReplaceFirst (s pat repl : String) : String :=
  if pat.data = [] then ⟨repl.data ++ s.data⟩
  else ⟨replaceFirstAux pat.data repl.data s.data⟩

/-- Fuel-driven body of a global (all occurrences, left-to-right,
non-overlapping) string replacement, as performed by `str.replace(/pat/g, repl)`
for a literal pattern.  The fuel is an upper bound on the scanned length. -/
def replaceAllAux (pat repl : List Char) : Nat → List Char → List Char
  | 0, s => s
  | _ + 1, [] => []
  | fuel + 1, c :: t =>
    if pat.isPrefixOf (c :: t) then
      repl ++ replaceAllAux pat repl fuel ((c :: t).drop pat.length)
    else c :: replaceAllAux pat repl fuel t

/-- JavaScript `str.replace(/pat/g, repl)` for a non-empty literal pattern. -/
def jsReplaceAll (s pat repl : String) : String :=
  if pat.data = [] then s
  else ⟨replaceAllAux pat.data repl.data s.data.length s.data⟩

/-- Constant `DBUG_LEVELS` from the source (line 124). -/
def DBUG_LEVELS : List String := ["debug", "info", "warn", "error"]

/-- Function `getLoggerLevel` from the source (line 127): scans `DBUG_LEVELS` from the
last element downwards (`while (i--)`) and returns the first level `lv` such
that the name ends with `.lv`, defaulting to `debug`. -/
def getLoggerLevel (name : String) : String :=
  match DBUG_LEVELS.reverse.find? (fun lv => endsWith name ("." ++ lv)) with
  | some lv => lv
  | none => "debug"

/-! ### Posix path semantics

`console.js` uses Node's `path` module, an external collaborator.  The
functions below model its Posix behaviour: paths are `/`-separated strings,
and relative paths are resolved against the root directory. -/

/-- Split a character list on a separator character (`"a/b"` gives
`["a", "b"]`, and separators at the ends produce empty segments, as
JavaScript's `split` does). -/
def splitSep (sep : Char) : List Char → List (List Char)
  | [] => [[]]
  | c :: t =>
    let r := splitSep sep t
    if c = sep then [] :: r
    else
      match r with
      | h :: rest => (c :: h) :: rest
      | [] => [[c]]

/-- Split a path string on `/`. -/
def splitSlash (s : String) : List String :=
  (splitSep '/' s.data).map (fun l => ⟨l⟩)

/-- Join path segments with `/`. -/
def joinSegs : List String → String
  | [] => ""
  | [s] => s
  | s :: rest => s ++ "/" ++ joinSegs rest

/-- Path normalization over segments: drops empty and `.` segments and
resolves `..` against the accumulated prefix (an absolute path discards
leading `..`; a relative one keeps it).  `acc` holds the kept segments in
reverse. -/
def normSegsAux (abs : Bool) : List String → List String → List String
  | acc, [] => acc.reverse
  | acc, seg :: rest =>
    if seg = "" ∨ seg = "." then normSegsAux abs acc rest
    else if seg = ".." then
      match acc with
      | top :: acc' =>
        if top = ".." then normSegsAux abs (".." :: top :: acc') rest
        else normSegsAux abs acc' rest
      | [] => if abs then normSegsAux abs [] rest else normSegsAux abs [".."] rest
    else normSegsAux abs (seg :: acc) rest

/-- Node `path.basename` (Posix): trailing separators stripped, then the
part after the last separator; a path of only separators gives `/`. -/
def pathBasename (p : String) : String :=
  let noTrail := (p.data.reverse.dropWhile (· = '/')).reverse
  if noTrail = [] then (if p.data = [] then "" else "/")
  else ⟨(noTrail.reverse.takeWhile (· ≠ '/')).reverse⟩

/-- Node `path.extname` (Posix): the suffix of the basename from its last
dot, or empty when there is no dot or the only dot is the leading one. -/
def pathExtname (p : String) : String :=
  let b := (pathBasename p).data
  let afterRev := b.reverse.takeWhile (· ≠ '.')
  if afterRev.length = b.length then ""               -- no dot at all
  else if afterRev.length + 1 = b.length then ""      -- the dot leads the name
  else ⟨'.' :: afterRev.reverse⟩

/-- Node `path.join(a, b)` (Posix): concatenate with a separator, then
normalize. -/
def pathJoin (a b : String) : String :=
  let s := if a = "" then b else if b = "" then a else a ++ "/" ++ b
  let abs := s.data.head? = some '/'
  let core := joinSegs (normSegsAux abs [] (splitSlash s))
  if abs then (if core = "" then "/" else "/" ++ core)
  else (if core = "" then "." else core)

/-- Drop the common prefix of two segment lists, returning both remainders. -/
def dropCommon : List String → List String → List String × List String
  | a :: as, b :: bs => if a = b then dropCommon as bs else (a :: as, b :: bs)
  | as, bs => (as, bs)

/-- Node `path.relative(from, to)` (Posix), with the process working
directory taken to be `/`: resolve both paths, drop the common segment
prefix, and climb with `..` for what remains of `from`. -/
def pathRelative (fromP toP : String) : String :=
  let f := normSegsAux true [] (splitSlash fromP)
  let t := normSegsAux true [] (splitSlash toP)
  let (fr, tr) := dropCommon f t
  joinSegs (List.replicate fr.length ".." ++ tr)

/-- The separator replacement `moduleName.replace(/[\\\/]/g, '.')` from the source (line 84): every
path separator character becomes a dot. -/
def sepsToDots (s : String) : String :=
  ⟨s.data.map (fun c => if c = '/' ∨ c = '\\' then '.' else c)⟩

/-! ### Caller attribution (`getLoggerName`) -/

/-- One captured stack frame, as produced by the `stack-trace` collaborator:
`getFileName()` can yield a string or `null`/`undefined` (modelled `none`). -/
structure Frame where
  fileName : Option String
deriving DecidableEq

/-- JavaScript truthiness of a string-or-undefined value: `undefined` and
the empty string are falsy. -/
def truthyS : Option String → Bool
  | some s => s ≠ ""
  | none => false

/-- The two debug-library internal paths skipped while a debug name is being
attributed (source lines 58-61). -/
def DEBUG_SKIP_PATHS : List String :=
  [pathJoin (pathJoin (pathJoin "node_modules" "debug") "lib") "debug.js",
   pathJoin (pathJoin (pathJoin "node_modules" "dbug") "lib") "dbug.js"]

/-- The `skip` closure of `getLoggerName` (source line 64).  On a frame with
no file identity the two strict equality tests are false, and
`debug.some(...)` calls `endsWith(null, d)` — a thrown `TypeError` — as soon
as the debug list is non-empty; an empty list never invokes the callback.
`none` models the throw. -/
def skipFrame (fname : String) (debug : List String) : Option String → Option Bool
  | some n => some (n = fname ∨ n = "console.js" ∨ debug.any (fun d => endsWith n d))
  | none => if debug.isEmpty then some false else none

/-- The frame-walking loop of `getLoggerName` (source line 73): `filename`
is assigned before the skip test, so when every frame is skipped the last
frame's file name remains; on an empty stack it stays `undefined` (the
initial `last`).  The outer `none` is a thrown exception from `skipFrame`. -/
def walkFrames (fname : String) (debug : List String) :
    List Frame → Option String → Option (Option String)
  | [], last => some last
  | f :: rest, _ =>
    match skipFrame fname debug f.fileName with
    | none => none
    | some true => walkFrames fname debug rest f.fileName
    | some false => some f.fileName

/-- The module-name computation of `getLoggerName` before the debug-name
suffix step (source lines 73-88): attribute a frame, then derive the dotted
name from its path.  `none` models a thrown exception — either from
`skipFrame`, or from `path.relative(root, filename)` when `filename` is not
a string. -/
def resolveModuleName (fname root : String) (debug : List String)
    (trace : List Frame) : Option String :=
  match walkFrames fname debug trace none with
  | none => none
  | some none => none
  | some (some filename) =>
    let topName := pathBasename root
    let topName := jsReplaceFirst topName (pathExtname topName) ""
    let moduleName := pathJoin topName (pathRelative root filename)
    let moduleName := jsReplaceFirst moduleName (pathExtname moduleName) ""
    let moduleName := sepsToDots moduleName
    some (jsReplaceAll moduleName ".lib." ".")

/-- Function `getLoggerName` from the source (line 48): `fname` is the module's own
`__filename`.  When `debugName` is truthy the two debug-library paths are
skipped as well, and the debug name is appended as a suffix unless the
resolved name already ends with it (note: the source's `endsWith` test uses
the bare `debugName`, without a leading dot). -/
def getLoggerName (fname root : String) (trace : List Frame)
    (debugName : Option String) : Option String :=
  let debug := if truthyS debugName then DEBUG_SKIP_PATHS else []
  match resolveModuleName fname root debug trace with
  | none => none
  | some moduleName =>
    match debugName with
    | some d =>
      if d ≠ "" then
        if endsWith moduleName d then some moduleName
        else some (moduleName ++ "." ++ d)
      else some moduleName
    | none => some moduleName

/-- Function `dbugName` from the source (line 138), the spec's `stripLevel`:
returns `none` (JavaScript `undefined`) on a falsy name, the name itself
when it has no dot, and otherwise the name with the *first* occurrence of
`.<level>` removed, where `<level>` is the trailing level found by
`getLoggerLevel`. -/
def dbugName (name : String) : Option String :=
  if name = "" then none
  else if jsIndexOf name "." = -1 then some name
  else some (jsReplaceFirst name ("." ++ getLoggerLevel name) "")

/-! ### Debug message parsing (`parseDebug`) -/

/-- Characters that JavaScript's regexp `.` does not match (line
terminators). -/
def isLineTerm (c : Char) : Bool :=
  c = '\n' ∨ c = '\r' ∨ c = '\u2028' ∨ c = '\u2029'

/-- The ANSI escape character. -/
def ESC : Char := '\x1b'

/-- The literal `\u001b[90m` separator of `DEBUG_COLORED_RE` (source
line 119). -/
def sepChars : List Char := [ESC, '[', '9', '0', 'm']

/-- Backtracking split for the two greedy `(.+)` groups of
`DEBUG_COLORED_RE`: the first group takes the longest prefix (of length `k`,
counting down) that is followed by the literal `\u001b[90m` and a non-empty
line-terminator-free second group running to the end of the string. -/
def trySplit (rest : List Char) : Nat → Option (List Char × List Char)
  | 0 => none
  | k + 1 =>
    let b := rest.drop (k + 1 + 5)
    if sepChars.isPrefixOf (rest.drop (k + 1)) ∧ b ≠ [] ∧
        b.all (fun c => ¬ isLineTerm c) then
      some (rest.take (k + 1), b)
    else trySplit rest k

/-- Matching of `DEBUG_COLORED_RE` (source line 114):
`^  \u001b[9\dm(.+)\u001b[90m(.+)$` — two literal spaces, a bright ANSI
color open, the logger-name group, the dim color code, and the message
group.  Returns the two captured groups. -/
def matchColored (s : List Char) : Option (List Char × List Char) :=
  match s with
  | ' ' :: ' ' :: e :: '[' :: '9' :: d :: 'm' :: rest =>
    if e = ESC ∧ d.isDigit then
      trySplit rest (rest.takeWhile (fun c => ¬ isLineTerm c)).length
    else none
  | _ => none

/-- Modelled from the spec: `chalk.stripColor` is the external ANSI
color-stripping collaborator; it removes ANSI color sequences of the shape
`ESC [ <digits or semicolons> m` and leaves everything else in place. -/
def stripColorAux : Nat → List Char → List Char
  | 0, s => s
  | _ + 1, [] => []
  | fuel + 1, c :: t =>
    if c = ESC then
      match t with
      | '[' :: u =>
        match u.dropWhile (fun ch => ch.isDigit ∨ ch = ';') with
        | 'm' :: w => stripColorAux fuel w
        | _ => c :: stripColorAux fuel t
      | _ => c :: stripColorAux fuel t
    else c :: stripColorAux fuel t

/-- Modelled from the spec: `chalk.stripColor` on a string. -/
def stripColor (s : String) : String :=
  ⟨stripColorAux s.data.length s.data⟩

/-- JavaScript whitespace for `String.prototype.trim`. -/
def isJsWhite (c : Char) : Bool :=
  c = ' ' ∨ c = '\t' ∨ c = '\n' ∨ c = '\r' ∨ c = '\x0b' ∨ c = '\x0c' ∨
  c = '\u00a0' ∨ c = '\u2028' ∨ c = '\u2029' ∨ c = '\ufeff'

/-- JavaScript `str.trim()`. -/
def jsTrim (s : String) : String :=
  ⟨((s.data.dropWhile isJsWhite).reverse.dropWhile isJsWhite).reverse⟩

/-- The colon replacement `logger.replace(/:/g, '.')` (source lines 161 and 167): external debug
namespaces use `:` as separator; every colon becomes a dot. -/
def colonToDot (s : String) : String :=
  ⟨s.data.map (fun c => if c = ':' then '.' else c)⟩

/-- JavaScript `String(args[0])` for the argument list: an absent first
argument stringifies to `"undefined"`. -/
def jsFirstArg (args : List String) : String :=
  args.headD "undefined"

/-- Function `parseDebug` from the source (line 150).  `utcHas`/`utcGet` stand for
the external `utcstring` collaborator (`utc.has`/`utc.get`: detection and
extraction of a UTC timestamp substring).  Returns the JavaScript return
value (`none` is `undefined`) together with the argument list, whose first
element is overwritten in the two matching branches. -/
def parseDebug (utcHas : String → Bool) (utcGet : String → String)
    (args : List String) : Option String × List String :=
  let str := jsFirstArg args
  match matchColored str.data with
  | some (g1, g2) =>
    let logger := jsTrim (stripColor ⟨g1⟩)
    let msg := jsTrim (stripColor ⟨g2⟩)
    (some (colonToDot logger), args.set 0 msg)
  | none =>
    if utcHas str then
      let str2 := jsTrim (jsReplaceFirst str (utcGet str) "")
      let logger : String := ⟨str2.data.takeWhile (· ≠ ' ')⟩
      let msg := jsTrim (jsReplaceFirst str2 logger "")
      (some (colonToDot logger), args.set 0 msg)
    else (none, args)

/-! ### Dispatch (`deliver`) -/

/-- Constant `ALIASES` from the source (line 15): the five console methods wrapped by
name (note `log` and `dir` are not among them). -/
def ALIASES : List String := ["trace", "debug", "info", "warn", "error"]

/-- Constant `METHOD_NAMES` from the source (line 30): the seven methods snapshotted
into `ORIGINAL_METHODS`. -/
def METHOD_NAMES : List String :=
  ["trace", "debug", "dir", "error", "info", "log", "warn"]

/-- Modelled from the spec: `intel.getLogger(name)` — the external logger
registry (the `intel` package's registry is not part of `lib/console.js`).
It creates the logger on first request; the returned `_name` is the name the
logger was registered under, after the registry's own normalization `norm`.
The registry state is the list of registered names. -/
def getLoggerReg (norm : String → String) (reg : List String)
    (name : String) : List String × String :=
  let n := norm name
  ((if reg.contains n then reg else reg ++ [n]), n)

/-- The module-level configuration read by `deliver`: `fname` is
`__filename`, `root` and `ignore` the values of `setRoot`/`setIgnore`,
`isDebugging` the flag set by `setDebug`, and `trace` the stack that
`stack.get()` captures during this dispatch. -/
structure Env where
  fname : String
  root : String
  ignore : List String
  isDebugging : Bool
  trace : List Frame

/-- Where a dispatched call ends up: forwarded to a snapshotted original
console method, or to a level method of a registry logger. -/
inductive Sink
  | original : String → List String → Sink
  | logger : String → String → List String → Sink
deriving DecidableEq

/-- Result of a dispatch: the registry state afterwards and the sink the
arguments were forwarded to. -/
structure DeliverOut where
  registry : List String
  sink : Sink
deriving DecidableEq

/-- Function `deliver` from the source (line 202): parse a debug message when
debugging is on, resolve the logger name from the stack (`none` propagates a
thrown exception), look the logger up in the registry (this happens *before*
the ignore test), then either forward to the pristine original method when
the canonical name starts with an ignore prefix, or forward to the logger at
the chosen level. -/
def deliver (utcHas : String → Bool) (utcGet : String → String)
    (norm : String → String) (env : Env) (reg : List String)
    (method : String) (args : List String) : Option DeliverOut :=
  let p := if env.isDebugging then parseDebug utcHas utcGet args else (none, args)
  let debugged := p.1
  let args' := p.2
  match getLoggerName env.fname env.root env.trace (debugged.bind dbugName) with
  | none => none
  | some nm =>
    let r := getLoggerReg norm reg nm
    let reg' := r.1
    let name := r.2
    if env.ignore.any (fun pre => jsIndexOf name pre = 0) then
      some ⟨reg', Sink.original method args'⟩
    else
      let method' :=
        match debugged with
        | some s => if s ≠ "" then getLoggerLevel s else method
        | none => method
      let level := if ALIASES.contains method' then method' else "debug"
      some ⟨reg', Sink.logger name level args'⟩

/-! ### Debug flag (`setDebug`) -/

/-- The JavaScript value passed as the `debug` option: a boolean, a string,
or `undefined` (the option was absent). -/
inductive DebugOpt
  | bool : Bool → DebugOpt
  | str : String → DebugOpt
  | undef : DebugOpt
deriving DecidableEq

/-- JavaScript `String(debug)`. -/
def jsToString : DebugOpt → String
  | .bool true => "true"
  | .bool false => "false"
  | .str s => s
  | .undef => "undefined"

/-- JavaScript truthiness of the `debug` option. -/
def truthyOpt : DebugOpt → Bool
  | .bool b => b
  | .str s => s ≠ ""
  | .undef => false

/-- The state touched by `setDebug`: the `DEBUG` environment variable
(`none` when unset), the module's `isDebugging` flag, and whether
`dbug.__log` currently points at this module's `dbugHook` (rather than the
debug library's own emitter). -/
structure DebugState where
  envDEBUG : Option String
  isDebugging : Bool
  dbugLogIsHook : Bool
deriving DecidableEq

/-- Function `setDebug` from the source (line 188): `debug === true` sets
`DEBUG = '*'`; otherwise any value whose stringification is non-empty (which
includes `false` and `undefined`!) is appended to a truthy existing `DEBUG`
or assigned outright; `isDebugging` is the option's truthiness; and
`dbug.__log` is pointed at the hook unconditionally. -/
def setDebug (debug : DebugOpt) (st : DebugState) : DebugState :=
  let env :=
    if debug = DebugOpt.bool true then some "*"
    else if jsToString debug ≠ "" then
      match st.envDEBUG with
      | some e => if e ≠ "" then some (e ++ "," ++ jsToString debug)
                  else some (jsToString debug)
      | none => some (jsToString debug)
    else st.envDEBUG
  ⟨env, truthyOpt debug, true⟩

/-! ### Install and restore (`overrideConsole` / `restoreConsole`)

Console methods are modelled as values of an arbitrary type `V`; equality
of `V` values models JavaScript reference identity.  A real console's
methods are function references and therefore truthy, so the source's
truthiness tests on snapshotted methods become `Option.isSome`. -/

/-- The options object accepted by `overrideConsole`; `none` fields model
absent properties. -/
structure InstallOptions where
  root : Option String
  ignore : Option (List String)
  debug : DebugOpt

/-- The process-wide state the interceptor mutates: the console's method
table, the `ORIGINAL_METHODS` snapshot (`none` is an absent or `undefined`
property), and the `root`/`ignore`/debug configuration. -/
structure InterceptState (V : Type) where
  console : String → V
  originals : String → Option V
  root : String
  ignore : List String
  dbg : DebugState

/-- Function `copyProperties` from the source (line 23), for `Option`-valued maps:
each listed property of `source` is assigned onto `target`. -/
def copyProperties {V : Type} (source target : String → Option V)
    (props : List String) : String → Option V :=
  fun m => if props.contains m then source m else target m

/-- Function `overrideConsole` from the source (line 222).  `callerFile` is
`stack.get()[1].getFileName()`, used for the default root; `wrap` produces
the fresh wrapper closures installed over the seven methods.  The snapshot
into `ORIGINAL_METHODS` happens only when `ORIGINAL_METHODS.log` is falsy. -/
def overrideConsole {V : Type} (callerFile : String) (wrap : String → V)
    (opts : InstallOptions) (st : InterceptState V) : InterceptState V :=
  let root :=
    match opts.root with
    | some r => if r ≠ "" then r else pathJoin callerFile ".."
    | none => pathJoin callerFile ".."
  let ignore := opts.ignore.getD []
  let dbg := setDebug opts.debug st.dbg
  let originals :=
    if (st.originals "log").isSome then st.originals
    else copyProperties (fun m => some (st.console m)) st.originals METHOD_NAMES
  let console := fun m =>
    if ALIASES.contains m || m = "log" || m = "dir" then wrap m else st.console m
  ⟨console, originals, root, ignore, dbg⟩

/-- Function `restoreConsole` from the source (line 249): every truthy entry of
`ORIGINAL_METHODS` is written back onto the console, the snapshot's
properties are reset to `undefined`, and `dbug.__log` is pointed back at the
debug library's own emitter. -/
def restoreConsole {V : Type} (st : InterceptState V) : InterceptState V :=
  let console := fun m =>
    match st.originals m with
    | some v => v
    | none => st.console m
  let originals := copyProperties (fun _ => none) st.originals METHOD_NAMES
  ⟨console, originals, st.root, st.ignore,
   ⟨st.dbg.envDEBUG, st.dbg.isDebugging, false⟩⟩

/-! ### General lemmas about the string machinery -/

theorem firstMatchIdx_isSome_iff (p : List Char) :
    ∀ l : List Char, (firstMatchIdx l p).isSome = true ↔ ∃ i, p <+: l.drop i := by
  intro l
  induction l with
  | nil =>
    rw [firstMatchIdx]
    by_cases h : p.isPrefixOf ([] : List Char)
    · simp only [h, if_true, Option.isSome_some, true_iff]
      exact ⟨0, by simpa using List.isPrefixOf_iff_prefix.1 h⟩
    · simp only [List.isPrefixOf_iff_prefix] at h
      simp only [List.isPrefixOf_iff_prefix, h, if_false, Option.isSome_none,
        Bool.false_eq_true, false_iff, not_exists]
      intro i hi
      exact h (by simpa using hi)
  | cons c t ih =>
    rw [firstMatchIdx]
    by_cases h : p.isPrefixOf (c :: t)
    · simp only [h, if_true, Option.isSome_some, true_iff]
      exact ⟨0, by simpa using List.isPrefixOf_iff_prefix.1 h⟩
    · simp only [List.isPrefixOf_iff_prefix] at h
      simp only [List.isPrefixOf_iff_prefix, h, if_false, Option.isSome_map']
      rw [ih]
      constructor
      · rintro ⟨i, hi⟩
        exact ⟨i + 1, by simpa using hi⟩
      · rintro ⟨i, hi⟩
        match i with
        | 0 => exact absurd (by simpa using hi) h
        | j + 1 => exact ⟨j, by simpa using hi⟩

theorem endsWith_iff (s t : String) :
    endsWith s t = true ↔ t.data <:+ s.data := by
  unfold endsWith
  rw [firstMatchIdx_isSome_iff]
  constructor
  · rintro ⟨i, hi⟩
    rw [List.drop_drop] at hi
    have hlen := hi.length_le
    rw [List.length_drop] at hlen
    by_cases hm : t.data.length = 0
    · simp [List.eq_nil_of_length_eq_zero hm]
    · have hj : s.data.length - t.data.length + i = s.data.length - t.data.length := by
        omega
      rw [hj] at hi
      have heq : t.data = s.data.drop (s.data.length - t.data.length) :=
        hi.eq_of_length (by rw [List.length_drop]; omega)
      rw [heq]
      exact List.drop_suffix _ _
  · intro h
    refine ⟨0, ?_⟩
    have heq : t.data = s.data.drop (s.data.length - t.data.length) :=
      List.suffix_iff_eq_drop.1 h
    rw [List.drop_zero, ← heq]

theorem suffix_of_suffix_length_le {α : Type} {l₁ l₂ l₃ : List α}
    (h₁ : l₁ <:+ l₃) (h₂ : l₂ <:+ l₃) (h : l₁.length ≤ l₂.length) : l₁ <:+ l₂ := by
  have p := List.prefix_of_prefix_length_le h₁.reverse h₂.reverse (by simpa using h)
  simpa using p.reverse

theorem replaceFirstAux_append (p r : List Char) (hp : p ≠ []) :
    ∀ x : List Char, (∀ i, i < x.length → ¬ p <+: ((x ++ p).drop i)) →
      replaceFirstAux p r (x ++ p) = x ++ r := by
  intro x
  induction x with
  | nil =>
    intro _
    match p, hp with
    | c :: t, _ =>
      rw [List.nil_append, replaceFirstAux]
      simp [List.isPrefixOf_iff_prefix]
  | cons c x' ih =>
    intro hx
    have h0 : ¬ p <+: (c :: (x' ++ p)) := by
      have := hx 0 (by simp)
      simpa using this
    have h0' : p.isPrefixOf (c :: (x' ++ p)) = false := by
      rw [Bool.eq_false_iff]
      intro hb
      exact h0 (List.isPrefixOf_iff_prefix.1 hb)
    rw [List.cons_append, replaceFirstAux, h0']
    simp only [Bool.false_eq_true, if_false, List.cons_append, List.cons.injEq, true_and]
    exact ih (fun i hi => by
      have := hx (i + 1) (by simpa using Nat.succ_lt_succ hi)
      simpa using this)

theorem walkFrames_cons_irrel (fn : String) (dbg : List String) (f : Frame)
    (l : List Frame) (last last' : Option String) :
    walkFrames fn dbg (f :: l) last = walkFrames fn dbg (f :: l) last' := by
  rw [walkFrames, walkFrames]

theorem walkFrames_replicate_self (fn : String) (k : Nat) (f : Frame)
    (l : List Frame) (last : Option String) :
    walkFrames fn [] (List.replicate k ⟨some fn⟩ ++ (f :: l)) last
      = walkFrames fn [] (f :: l) last := by
  induction k generalizing last with
  | zero => simp
  | succ k ih =>
    rw [List.replicate_succ, List.cons_append, walkFrames]
    have hs : skipFrame fn [] (some fn) = some true := by simp [skipFrame]
    rw [hs]
    rw [ih (some fn)]
    exact walkFrames_cons_irrel fn [] f l (some fn) last

theorem walkFrames_allSome (fn : String) (dbg : List String) :
    ∀ (t : List Frame) (last : Option String),
      (∀ fr ∈ t, fr.fileName ≠ none) → (t ≠ [] ∨ last ≠ none) →
      ∃ s, walkFrames fn dbg t last = some (some s) := by
  intro t
  induction t with
  | nil =>
    intro last _ hne
    rcases hne with h' | h'
    · exact absurd rfl h'
    · match last, h' with
      | some s, _ => exact ⟨s, by rw [walkFrames]⟩
  | cons f rest ih =>
    intro last h _
    have hf : f.fileName ≠ none := h f (by simp)
    match hm : f.fileName with
    | none => exact absurd hm hf
    | some n =>
      rw [walkFrames, hm]
      obtain ⟨b, hsk⟩ : ∃ b, skipFrame fn dbg (some n) = some b := ⟨_, rfl⟩
      rw [hsk]
      cases b with
      | false => exact ⟨n, rfl⟩
      | true =>
        exact ih (some n) (fun fr hfr => h fr (List.mem_cons_of_mem f hfr))
          (Or.inr (by simp))

/-- C3: For a call stack whose first non-instrumentation frame is the file
`<root>/lib/session.js` and a ProjectRoot whose basename is `connect`,
name resolution with no external debug name returns exactly
`connect.session`: the path is made relative to the root, the extension
stripped, separators become dots, the `.lib.` infix removed, and the root's
basename is prepended as the first segment. -/
theorem C3_name_resolution (fname : String) (k : Nat) (rest : List Frame)
    (hne : fname ≠ "/proj/connect/lib/session.js") :
    getLoggerName fname "/proj/connect"
      (List.replicate k ⟨some fname⟩ ++ ⟨some "/proj/connect/lib/session.js"⟩ :: rest)
      none = some "connect.session" := by
  have hw : walkFrames fname []
      (List.replicate k ⟨some fname⟩ ++ ⟨some "/proj/connect/lib/session.js"⟩ :: rest)
      none = some (some "/proj/connect/lib/session.js") := by
    rw [walkFrames_replicate_self, walkFrames]
    have hs : skipFrame fname [] (some "/proj/connect/lib/session.js") = some false := by
      simp [skipFrame, Ne.symm hne]
    rw [hs]
  unfold getLoggerName resolveModuleName
  simp only [truthyS, Bool.false_eq_true, if_false]
  rw [hw]
  decide

/-- C3 witness. -/
theorem C3_name_resolution_witness :
    getLoggerName "/app/node_modules/intel/lib/console.js" "/proj/connect"
      (List.replicate 2 ⟨some "/app/node_modules/intel/lib/console.js"⟩ ++
        ⟨some "/proj/connect/lib/session.js"⟩ :: [⟨some "/proj/connect/app.js"⟩])
      none = some "connect.session" :=
  C3_name_resolution "/app/node_modules/intel/lib/console.js" 2
    [⟨some "/proj/connect/app.js"⟩] (by decide)

/-- C4 counterexample: the source's suffix test uses the bare `debugName`
without a leading dot, so a resolved name `app.mysession` with debug name
`session` is returned unchanged, although it does not end with `.session`
and the claim demands `app.mysession.session`. -/
theorem C4_counterexample :
    getLoggerName "/app/node_modules/intel/lib/console.js" "/proj/app"
      [⟨some "/proj/app/mysession.js"⟩] none = some "app.mysession" ∧
    endsWith "app.mysession" ("." ++ "session") = false ∧
    getLoggerName "/app/node_modules/intel/lib/console.js" "/proj/app"
      [⟨some "/proj/app/mysession.js"⟩] (some "session") = some "app.mysession" ∧
    some "app.mysession" ≠ some ("app.mysession" ++ "." ++ "session") := by
  decide

/-- C4 as amended: with a truthy external debug name `d`, the resolved
module name `m` (attributed while also skipping the two debug-library
paths) is returned unchanged when it ends with the *bare* string `d` —
segment-aligned or not — and otherwise `.d` is appended. -/
theorem C4_amended (f r : String) (t : List Frame) (d m : String) (hd : d ≠ "")
    (hm : resolveModuleName f r DEBUG_SKIP_PATHS t = some m) :
    getLoggerName f r t (some d)
      = if endsWith m d then some m else some (m ++ "." ++ d) := by
  have ht : truthyS (some d) = true := by simp [truthyS, hd]
  unfold getLoggerName
  rw [ht]
  simp only [if_true, hm]
  rw [if_pos hd]

/-- C4 amended witness. -/
theorem C4_amended_witness :
    getLoggerName "/app/node_modules/intel/lib/console.js" "/proj/app"
      [⟨some "/proj/app/mysession.js"⟩] (some "session")
      = if endsWith "app.mysession" "session" then some "app.mysession"
        else some ("app.mysession" ++ "." ++ "session") :=
  C4_amended "/app/node_modules/intel/lib/console.js" "/proj/app"
    [⟨some "/proj/app/mysession.js"⟩] "session" "app.mysession"
    (by decide) (by decide)

/-- C5 counterexample: `dbugName` removes the *first* occurrence of
`.<level>`, not the trailing one: on `app.warn.server.warn` (which does
end in the recognized level `warn`) it produces `app.server.warn`, not the
claim's `app.warn.server`. -/
theorem C5_counterexample :
    endsWith "app.warn.server.warn" ".warn" = true ∧
    dbugName "app.warn.server.warn" = some "app.server.warn" ∧
    dbugName "app.warn.server.warn" ≠ some "app.warn.server" := by
  decide

/-- C5 as amended: a name with no dot is returned unchanged, and a name of
the form `a.<level>` with a recognized level loses exactly its trailing
`.<level>` segment *provided* that segment's first occurrence is the
trailing one (the source removes the first occurrence of `.<level>`). -/
theorem C5_amended :
    (∀ name : String, name ≠ "" → jsIndexOf name "." = -1 →
      dbugName name = some name) ∧
    (∀ a lv : String, lv ∈ DBUG_LEVELS → a ≠ "" →
      (∀ i, i < a.data.length →
        ¬ (("." ++ lv).data <+: ((a ++ "." ++ lv).data.drop i))) →
      dbugName (a ++ "." ++ lv) = some a) := by
  constructor
  · intro name hne hidx
    unfold dbugName
    rw [if_neg hne, if_pos hidx]
  · intro a lv hlv ha hocc
    have hdata : (a ++ "." ++ lv).data = a.data ++ ('.' :: lv.data) := by
      simp
    have hne : (a ++ "." ++ lv) ≠ "" := by
      intro h
      have := congrArg String.data h
      rw [hdata] at this
      simp at this
    have hsuf : ("." ++ lv).data <:+ (a ++ "." ++ lv).data := by
      rw [hdata]
      exact ⟨a.data, by simp⟩
    have hdot : ¬ jsIndexOf (a ++ "." ++ lv) "." = -1 := by
      unfold jsIndexOf
      have hsome : (firstMatchIdx (a ++ "." ++ lv).data ".".data).isSome = true := by
        rw [firstMatchIdx_isSome_iff]
        exact ⟨a.data.length, by rw [hdata, List.drop_left]; exact ⟨lv.data, rfl⟩⟩
      match hfm : firstMatchIdx (a ++ "." ++ lv).data ".".data with
      | some i => simp
      | none => rw [hfm] at hsome; simp at hsome
    have hlevel : getLoggerLevel (a ++ "." ++ lv) = lv := by
      have hself : endsWith (a ++ "." ++ lv) ("." ++ lv) = true :=
        (endsWith_iff _ _).2 hsuf
      have hother : ∀ lv' : String, lv' ≠ lv → lv' ∈ DBUG_LEVELS →
          endsWith (a ++ "." ++ lv) ("." ++ lv') = false := by
        intro lv' hne' hmem
        rw [Bool.eq_false_iff]
        intro hb
        have hsuf' := (endsWith_iff _ _).1 hb
        simp only [DBUG_LEVELS] at hlv hmem
        fin_cases hlv <;> fin_cases hmem <;>
          first
          | exact hne' rfl
          | exact absurd (suffix_of_suffix_length_le hsuf' hsuf (by decide))
              (by decide)
          | exact absurd (suffix_of_suffix_length_le hsuf hsuf' (by decide))
              (by decide)
      unfold getLoggerLevel
      have hrev : DBUG_LEVELS.reverse = ["error", "warn", "info", "debug"] := rfl
      rw [hrev]
      simp only [DBUG_LEVELS] at hlv
      fin_cases hlv
      · -- lv = "debug"
        have h1 : endsWith (a ++ "." ++ "debug") ".error" = false :=
          hother "error" (by decide) (by decide)
        have h2 : endsWith (a ++ "." ++ "debug") ".warn" = false :=
          hother "warn" (by decide) (by decide)
        have h3 : endsWith (a ++ "." ++ "debug") ".info" = false :=
          hother "info" (by decide) (by decide)
        have h4 : endsWith (a ++ "." ++ "debug") ".debug" = true := hself
        simp [List.find?_cons, h1, h2, h3, h4]
      · -- lv = "info"
        have h1 : endsWith (a ++ "." ++ "info") ".error" = false :=
          hother "error" (by decide) (by decide)
        have h2 : endsWith (a ++ "." ++ "info") ".warn" = false :=
          hother "warn" (by decide) (by decide)
        have h3 : endsWith (a ++ "." ++ "info") ".info" = true := hself
        simp [List.find?_cons, h1, h2, h3]
      · -- lv = "warn"
        have h1 : endsWith (a ++ "." ++ "warn") ".error" = false :=
          hother "error" (by decide) (by decide)
        have h2 : endsWith (a ++ "." ++ "warn") ".warn" = true := hself
        simp [List.find?_cons, h1, h2]
      · -- lv = "error"
        have h1 : endsWith (a ++ "." ++ "error") ".error" = true := hself
        simp [List.find?_cons, h1]
    unfold dbugName
    rw [if_neg hne, if_neg hdot, hlevel]
    unfold jsReplaceFirst
    have hpne : ("." ++ lv).data ≠ [] := by simp
    rw [if_neg hpne]
    have := replaceFirstAux_append ("." ++ lv).data [] hpne a.data
      (fun i hi => by
        have := hocc i hi
        rw [hdata] at this
        simpa using this)
    rw [hdata]
    have hrw : a.data ++ ('.' :: lv.data) = a.data ++ ("." ++ lv).data := by simp
    rw [hrw, this]
    obtain ⟨ad⟩ := a
    simp

/-- C5 amended witness (the spec's own two examples). -/
theorem C5_amended_witness :
    dbugName ("app.server" ++ "." ++ "warn") = some "app.server" ∧
    dbugName "app" = some "app" :=
  ⟨C5_amended.2 "app.server" "warn" (by decide) (by decide) (by decide),
   C5_amended.1 "app" (by decide) (by decide)⟩

/-- C6 counterexample: a stack whose first eligible frame has no file
identity (`getFileName()` returned `null`) makes `getLoggerName` raise —
`path.relative(root, null)` throws a `TypeError` — modelled as `none`. -/
theorem C6_counterexample :
    getLoggerName "/app/node_modules/intel/lib/console.js" "/proj/app"
      [⟨none⟩] none = none := by
  decide

/-- C6 as amended: `getLoggerName` does not raise whenever every captured
frame carries a string file identity — even when every frame matches the
skip rules, it falls back to the last frame's file — but a frame with an
absent identity can make it raise. -/
theorem C6_amended (fn root : String) (t : List Frame) (d : Option String)
    (hne : t ≠ []) (hall : ∀ fr ∈ t, fr.fileName ≠ none) :
    (getLoggerName fn root t d).isSome = true := by
  obtain ⟨s, hw⟩ := walkFrames_allSome fn
    (if truthyS d then DEBUG_SKIP_PATHS else []) t none hall (Or.inl hne)
  unfold getLoggerName resolveModuleName
  simp only [hw]
  cases d with
  | none => simp
  | some dd =>
    rcases eq_or_ne dd "" with hdd | hdd
    · simp [hdd]
    · simp [hdd]
      split <;> simp

/-- C6 amended witness. -/
theorem C6_amended_witness :
    (getLoggerName "/app/node_modules/intel/lib/console.js" "/proj/app"
      [⟨some "/app/node_modules/intel/lib/console.js"⟩] none).isSome = true :=
  C6_amended "/app/node_modules/intel/lib/console.js" "/proj/app"
    [⟨some "/app/node_modules/intel/lib/console.js"⟩] none (by decide)
    (fun fr hfr => by
      simp only [List.mem_singleton] at hfr
      rw [hfr]
      simp)

/-- C2 counterexample: with ignore prefix `app` and a call resolving to
`app.x`, dispatch does forward to the original method, but the registry —
empty beforehand — now contains `app.x`: `deliver` calls
`intel.getLogger(name)` *before* the ignore test. -/
theorem C2_counterexample :
    deliver (fun _ => false) (fun _ => "") (fun s => s)
      ⟨"/app/node_modules/intel/lib/console.js", "/proj/app", ["app"], false,
        [⟨some "/proj/app/x.js"⟩]⟩ [] "log" ["hi"]
      = some ⟨["app.x"], Sink.original "log" ["hi"]⟩ ∧
    jsIndexOf "app.x" "app" = 0 ∧
    (["app.x"] : List String) ≠ [] := by
  decide

/-- C2 as amended: when the canonical registry name of the resolved logger
starts with a configured ignore prefix, dispatch forwards the (possibly
debug-rewritten) arguments to the pristine snapshotted original method and
returns — but the registry has already been consulted: its state is the one
produced by the `getLogger` call made before the ignore test. -/
theorem C2_amended (uh : String → Bool) (ug : String → String)
    (norm : String → String) (env : Env) (reg : List String)
    (method : String) (args : List String) (dbg : Option String)
    (args' : List String) (nm : String) (reg' : List String) (canonical : String)
    (hd : (if env.isDebugging then parseDebug uh ug args else (none, args))
      = (dbg, args'))
    (hn : getLoggerName env.fname env.root env.trace (dbg.bind dbugName) = some nm)
    (hr : getLoggerReg norm reg nm = (reg', canonical))
    (hi : env.ignore.any (fun pre => jsIndexOf canonical pre = 0) = true) :
    deliver uh ug norm env reg method args
      = some ⟨reg', Sink.original method args'⟩ := by
  unfold deliver
  simp only [hd, hn, hr, hi, if_true]

/-- C2 amended witness. -/
theorem C2_amended_witness :
    deliver (fun _ => false) (fun _ => "") (fun s => s)
      ⟨"/app/node_modules/intel/lib/console.js", "/proj/app", ["app"], false,
        [⟨some "/proj/app/y.js"⟩]⟩ [] "warn" ["w"]
      = some ⟨["app.y"], Sink.original "warn" ["w"]⟩ :=
  C2_amended (fun _ => false) (fun _ => "") (fun s => s)
    ⟨"/app/node_modules/intel/lib/console.js", "/proj/app", ["app"], false,
      [⟨some "/proj/app/y.js"⟩]⟩ [] "warn" ["w"] none ["w"] "app.y" ["app.y"]
    "app.y" rfl (by decide) rfl (by decide)

/-- C8 counterexample: `options.debug = false` is falsy, yet `setDebug`
writes `String(false) = "false"` into `process.env.DEBUG` and points
`dbug.__log` at the interceptor's hook — the environment and hookup are not
left as if debugging were off. -/
theorem C8_counterexample :
    truthyOpt (DebugOpt.bool false) = false ∧
    (setDebug (DebugOpt.bool false) ⟨none, false, false⟩).envDEBUG = some "false" ∧
    (setDebug (DebugOpt.bool false) ⟨none, false, false⟩).dbugLogIsHook = true := by
  decide

/-- C8 as amended: a falsy `debug` option does disable debug-message
parsing — `isDebugging` becomes false, so dispatch never parses and
forwards the arguments unmutated at the method-derived level — but
`setDebug` still redirects `dbug.__log` to the hook unconditionally, and
unless the falsy value stringifies to the empty string it still writes
`String(debug)` into `process.env.DEBUG`. -/
theorem C8_amended (d : DebugOpt) (st : DebugState)
    (hf : truthyOpt d = false) :
    (setDebug d st).isDebugging = false ∧
    (setDebug d st).dbugLogIsHook = true ∧
    (jsToString d = "" → (setDebug d st).envDEBUG = st.envDEBUG) ∧
    (jsToString d ≠ "" → (setDebug d st).envDEBUG ≠ none) ∧
    (∀ (uh : String → Bool) (ug : String → String) (norm : String → String)
        (env : Env) (reg : List String) (m : String) (args : List String)
        (out : DeliverOut), env.isDebugging = false →
      deliver uh ug norm env reg m args = some out →
      out.sink = Sink.original m args ∨
      ∃ n, out.sink
        = Sink.logger n (if ALIASES.contains m then m else "debug") args) := by
  have hdt : d ≠ DebugOpt.bool true := by
    rintro rfl
    simp [truthyOpt] at hf
  refine ⟨?_, ?_, ?_, ?_, ?_⟩
  · simp [setDebug, hf]
  · simp [setDebug]
  · intro h0
    simp [setDebug, hdt, h0]
  · intro hne
    cases henv : st.envDEBUG with
    | none => simp [setDebug, hdt, hne, henv]
    | some e =>
      rcases eq_or_ne e "" with he | he <;> simp [setDebug, hdt, hne, henv, he]
  · intro uh ug norm env reg m args out hdbg hdel
    unfold deliver at hdel
    simp only [hdbg, Bool.false_eq_true, if_false, Option.none_bind] at hdel
    cases hgn : getLoggerName env.fname env.root env.trace none with
    | none => rw [hgn] at hdel; simp at hdel
    | some nm =>
      rw [hgn] at hdel
      simp only [] at hdel
      split at hdel
      · left
        rw [← Option.some.inj hdel]
      · right
        exact ⟨(getLoggerReg norm reg nm).2, by rw [← Option.some.inj hdel]⟩

/-- C8 amended witness. -/
theorem C8_amended_witness :
    (setDebug (DebugOpt.bool false) ⟨none, false, false⟩).isDebugging = false ∧
    (setDebug (DebugOpt.bool false) ⟨none, false, false⟩).dbugLogIsHook = true :=
  ⟨(C8_amended (DebugOpt.bool false) ⟨none, false, false⟩ (by decide)).1,
   (C8_amended (DebugOpt.bool false) ⟨none, false, false⟩ (by decide)).2.1⟩

/-- C9: `parseDebug` on the literal colored debug line recognizes the
shape, returns the dotted logger name `app.server` (colons to dots, ANSI
stripped, whitespace trimmed), and overwrites the first argument in place
with the cleaned message. -/
theorem C9_parseDebug_colored (uh : String → Bool) (ug : String → String) :
    parseDebug uh ug ["  \u001b[94mapp:server\u001b[90m listening on port 3000"]
      = (some "app.server", ["listening on port 3000"]) := by
  rfl

/-- C9 witness (the collaborator parameters instantiated). -/
theorem C9_parseDebug_colored_witness :
    parseDebug (fun _ => false) (fun _ => "")
      ["  \u001b[94mapp:server\u001b[90m listening on port 3000"]
      = (some "app.server", ["listening on port 3000"]) :=
  C9_parseDebug_colored (fun _ => false) (fun _ => "")

/-- C10: on the colored-shape input whose name group trims to the empty
string, `parseDebug` overwrites the first argument in place yet returns the
falsy logger name `""`; the dispatcher then proceeds as if no debug message
had been parsed — no debug suffix on the resolved name, the level derived
from the intercepted method — but with the already-rewritten argument. -/
theorem C10_parse_mutates_with_falsy_name :
    parseDebug (fun _ => false) (fun _ => "") ["  \u001b[94m \u001b[90mX"]
      = (some "", ["X"]) ∧
    truthyS (some "") = false ∧
    deliver (fun _ => false) (fun _ => "") (fun s => s)
      ⟨"/app/node_modules/intel/lib/console.js", "/proj/app", [], true,
        [⟨some "/proj/app/x.js"⟩]⟩ [] "log" ["  \u001b[94m \u001b[90mX"]
      = some ⟨["app.x"], Sink.logger "app.x" "debug" ["X"]⟩ := by
  decide

/-- C1: from the uninstalled module state (`ORIGINAL_METHODS` empty, as at
module load or after a restore), installing and then immediately restoring
leaves each of the seven intercepted console methods identical — by the
model's value equality, standing for reference identity — to its
pre-install value, for every prior console method table. -/
theorem C1_install_restore_roundtrip {V : Type} (st : InterceptState V)
    (callerFile : String) (wrap : String → V) (opts : InstallOptions)
    (h : ∀ m, st.originals m = none) :
    ∀ m ∈ METHOD_NAMES,
      (restoreConsole (overrideConsole callerFile wrap opts st)).console m
        = st.console m := by
  intro m hm
  have hc : METHOD_NAMES.contains m = true := List.elem_eq_true_of_mem hm
  unfold restoreConsole overrideConsole copyProperties
  simp only [h, Option.isSome_none, Bool.false_eq_true, if_false, hc, if_true]

/-- C1 witness. -/
theorem C1_install_restore_roundtrip_witness :
    (restoreConsole (overrideConsole "/srv/app/main.js" (fun _ => (7 : Nat))
        ⟨none, none, DebugOpt.undef⟩
        ⟨fun _ => 0, fun _ => none, "", [], ⟨none, false, false⟩⟩)).console "log"
      = (⟨fun _ => (0 : Nat), fun _ => none, "", [],
          ⟨none, false, false⟩⟩ : InterceptState Nat).console "log" :=
  C1_install_restore_roundtrip
    ⟨fun _ => 0, fun _ => none, "", [], ⟨none, false, false⟩⟩
    "/srv/app/main.js" (fun _ => 7) ⟨none, none, DebugOpt.undef⟩
    (fun _ => rfl) "log" (by decide)

/-- C7: installing twice without an intervening restore leaves
`ORIGINAL_METHODS` holding the true pre-first-install console methods (the
second install does not re-snapshot the wrapped methods), so a single
subsequent restore reinstalls the originals, not wrappers. -/
theorem C7_double_install_snapshot {V : Type} (st : InterceptState V)
    (cf1 cf2 : String) (w1 w2 : String → V) (o1 o2 : InstallOptions)
    (h : ∀ m, st.originals m = none) :
    (∀ m ∈ METHOD_NAMES,
      (overrideConsole cf2 w2 o2 (overrideConsole cf1 w1 o1 st)).originals m
        = some (st.console m)) ∧
    (∀ m ∈ METHOD_NAMES,
      (restoreConsole
        (overrideConsole cf2 w2 o2 (overrideConsole cf1 w1 o1 st))).console m
        = st.console m) := by
  have h1 : ∀ m, (overrideConsole cf1 w1 o1 st).originals m
      = if METHOD_NAMES.contains m then some (st.console m)
        else st.originals m := by
    intro m
    unfold overrideConsole copyProperties
    simp [h]
  have hlog : ((overrideConsole cf1 w1 o1 st).originals "log").isSome = true := by
    rw [h1, if_pos (by decide : METHOD_NAMES.contains "log" = true)]
    rfl
  have hstable : ∀ (st' : InterceptState V),
      (st'.originals "log").isSome = true →
      ∀ m, (overrideConsole cf2 w2 o2 st').originals m = st'.originals m := by
    intro st' hl m
    unfold overrideConsole
    simp only [hl, if_true]
  have h2 := hstable (overrideConsole cf1 w1 o1 st) hlog
  constructor
  · intro m hm
    have hc : METHOD_NAMES.contains m = true := List.elem_eq_true_of_mem hm
    rw [h2, h1, if_pos hc]
  · intro m hm
    have hc : METHOD_NAMES.contains m = true := List.elem_eq_true_of_mem hm
    unfold restoreConsole
    simp only [h2, h1, hc, if_true]

/-- C7 witness. -/
theorem C7_double_install_snapshot_witness :
    (overrideConsole "/b.js" (fun _ => (2 : Nat)) ⟨none, none, DebugOpt.undef⟩
      (overrideConsole "/a.js" (fun _ => 1) ⟨none, none, DebugOpt.undef⟩
        ⟨fun _ => 0, fun _ => none, "", [], ⟨none, false, false⟩⟩)).originals "log"
      = some ((⟨fun _ => (0 : Nat), fun _ => none, "", [],
          ⟨none, false, false⟩⟩ : InterceptState Nat).console "log") :=
  (C7_double_install_snapshot
    ⟨fun _ => 0, fun _ => none, "", [], ⟨none, false, false⟩⟩
    "/a.js" "/b.js" (fun _ => 1) (fun _ => 2)
    ⟨none, none, DebugOpt.undef⟩ ⟨none, none, DebugOpt.undef⟩
    (fun _ => rfl)).1 "log" (by decide)

end Intel
